import Mathlib

/-!
Verification of the SVN diff post-processing core of `rbtools/clients/svn.py`
(class `SVNClient`): `parse_filename_header`, `find_copyfrom`, `handle_renames`
and `convert_to_absolute_paths`, together with the posixpath / urllib helpers
they call.

Lines of diff text are modelled as `List Char` (the Python code operates on
byte strings).  The external `svn info` metadata query is modelled as an
abstract lookup function returning an association list, mirroring the dict
built by `SVNClient.svn_info`.  Python exceptions (`ValueError` from tuple
unpacking, `KeyError` from `dict[...]`) and non-termination of the
`find_copyfrom` while-loop are made explicit through the `PyHalt` type.
-/

/-- Ways a run of the embedded code can fail to produce a value:
`valueError` models Python `ValueError` (tuple unpacking of a list whose
length is not 2), `keyError` models Python `KeyError` (`dict[k]` with `k`
absent), and `outOfFuel` models non-termination of a `while` loop. -/
inductive PyHalt where
  | valueError
  | keyError
  | outOfFuel
deriving DecidableEq

/-- The external `svn info` capability: `SVNClient.svn_info(path, True)`
returns `None` on error, else a dict of string keys/values, modelled as an
association list (first binding wins, as for the dict built line by line). -/
abbrev Lookup := List Char → Option (List (List Char × List Char))

/-- `dict.get(k)` / `dict[k]` lookup on the modelled `svn info` mapping. -/
def infoGet (info : List (List Char × List Char)) (k : List Char) :
    Option (List Char) :=
  List.lookup k info

/-- A metadata lookup that always misses, i.e. `svn info` failing on every
path (`none_on_ignored_error=True`). -/
def emptyLookup : Lookup := fun _ => none

def keyURL : List Char := "URL".data

def keyRepoRoot : List Char := "Repository Root".data

def keyCopiedFrom : List Char := "Copied From URL".data

/-- Python 2 `\s` for byte strings: `[ \t\n\r\f\v]`. -/
def isPySpace (c : Char) : Bool :=
  c = ' ' || c = '\t' || c = '\n' || c = '\r' ||
    c = Char.ofNat 11 || c = Char.ofNat 12

/-- Matcher for the trailing `\(.*\)` of the diff header regexes: finds a
`')'` before any newline (`.` does not match `\n`). -/
def pClose : List Char → Bool
  | [] => false
  | c :: rest => if c = ')' then true else if c = '\n' then false else pClose rest

/-- Matcher for `\(.*\)`. -/
def pParen : List Char → Bool
  | '(' :: rest => pClose rest
  | _ => false

/-- After at least one whitespace character of the second `\s+`: either the
`\(.*\)` starts here, or one more whitespace character is consumed. -/
def pAfterWs2 : List Char → Bool
  | [] => false
  | c :: rest => pParen (c :: rest) || (isPySpace c && pAfterWs2 rest)

/-- Matcher for `\s+\(.*\)`. -/
def pWsParen : List Char → Bool
  | [] => false
  | c :: rest => isPySpace c && pAfterWs2 rest

/-- Matcher for `.*\s+\(.*\)` (the `.*` may not cross a newline). -/
def pMid : List Char → Bool
  | [] => false
  | c :: rest => pWsParen (c :: rest) || (c != '\n' && pMid rest)

/-- After at least one whitespace character of the first `\s+`. -/
def pAfterWs1 : List Char → Bool
  | [] => false
  | c :: rest => pMid (c :: rest) || (isPySpace c && pAfterWs1 rest)

/-- Matcher for `\s+.*\s+\(.*\)`, the part of the header regexes after the
marker token. -/
def pTail : List Char → Bool
  | [] => false
  | c :: rest => isPySpace c && pAfterWs1 rest

/-- `re.match` for `^mmm\s+.*\s+\(.*\)` where `m` is the marker character:
the backtracking search of the Python regex engine is expressed as the
existential scan of the `p*` matchers. -/
def matchHdr (m : Char) (l : List Char) : Bool :=
  match l with
  | a :: b :: c :: t => a = m && b = m && c = m && pTail t
  | _ => false

/-- `SVNClient.DIFF_ORIG_FILE_LINE_RE.match(line)`, pattern `^---\s+.*\s+\(.*\)`. -/
def matchOrig (l : List Char) : Bool := matchHdr '-' l

/-- `SVNClient.DIFF_NEW_FILE_LINE_RE.match(line)`, pattern `^\+\+\+\s+.*\s+\(.*\)`. -/
def matchNew (l : List Char) : Bool := matchHdr '+' l

/-- Python `s.split(sep, 1)` when `sep` occurs: the pieces before and after
the first occurrence; `none` when `sep` does not occur. -/
def splitOnce (sep : Char) : List Char → Option (List Char × List Char)
  | [] => none
  | c :: rest =>
    if c = sep then some ([], rest)
    else (splitOnce sep rest).map (fun p => (c :: p.1, p.2))

/-- Python `s.split(sep, 1)` as a list (one element when `sep` is absent). -/
def pySplit1 (sep : Char) (s : List Char) : List (List Char) :=
  match splitOnce sep s with
  | some (a, b) => [a, b]
  | none => [s]

/-- Python `"  " in s`. -/
def hasDoubleSpace : List Char → Bool
  | ' ' :: ' ' :: _ => true
  | _ :: rest => hasDoubleSpace rest
  | [] => false

/-- `re.split(r"  +", s)`: split on every maximal run of two or more
spaces (no maxsplit: all runs separate).  The Boolean is the scanning mode:
`false` accumulates the current part (reversed) in the second argument;
`true` greedily consumes the remainder of a separator run whose first two
spaces have already been matched. -/
def reSplitAux : Bool → List Char → List Char → List (List Char)
  | false, cur, [] => [cur.reverse]
  | false, cur, ' ' :: ' ' :: rest => cur.reverse :: reSplitAux true [] rest
  | false, cur, c :: rest => reSplitAux false (c :: cur) rest
  | true, cur, [] => [cur.reverse]
  | true, cur, ' ' :: rest => reSplitAux true cur rest
  | true, _, c :: rest => reSplitAux false [c] rest

/-- `re.split(r"  +", s)`. -/
def reSplitSpaces (s : List Char) : List (List Char) := reSplitAux false [] s

/-- `SVNClient.parse_filename_header(s)`: note that the two separator checks
in the source are independent `if`s, not `if`/`elif`, so when both a tab and
a double-space run are present the space split overwrites the tab split.
The `some ps => ps` arm is unreachable: each split is performed only under
its occurrence guard, which forces at least two parts. -/
def parse_filename_header (s : List Char) : List (List Char) :=
  let parts0 : Option (List (List Char)) :=
    if s.contains '\t' then some (pySplit1 '\t' s) else none
  let parts : Option (List (List Char)) :=
    if hasDoubleSpace s then some (reSplitSpaces s) else parts0
  match parts with
  | some (a :: b :: r) => a :: ('\t' :: b) :: r
  | some ps => ps
  | none => [s.takeWhile (fun c => c != '\n'), ['\n']]

/-- The `to_file, _ = ...` / `file, rest = ...` tuple unpacking at both call
sites of `parse_filename_header`: Python raises `ValueError` unless the list
has exactly two elements. -/
def destructure2 (ps : List (List Char)) : Except PyHalt (List Char × List Char) :=
  match ps with
  | [a, b] => .ok (a, b)
  | _ => .error .valueError

/-- `s.rstrip('/')`. -/
def rstripSlash (l : List Char) : List Char :=
  (l.reverse.dropWhile (fun c => c == '/')).reverse

/-- `posixpath.split(p)`: the tail is everything after the last `'/'`; the
head is the rest, with trailing slashes stripped unless it consists only of
slashes. -/
def os_path_split (p : List Char) : List Char × List Char :=
  let tail := (p.reverse.takeWhile (fun c => c != '/')).reverse
  let head := p.take (p.length - tail.length)
  (if head.all (fun c => c == '/') then head else rstripSlash head, tail)

/-- `posixpath.join(a, b)` (two arguments). -/
def os_path_join (a b : List Char) : List Char :=
  if b.head? = some '/' then b
  else if a = [] ∨ a.getLast? = some '/' then a ++ b
  else a ++ '/' :: b

/-- The local `smart_join(p1, p2)` of `SVNClient.find_copyfrom`: join only
when `p2` is truthy. -/
def smart_join (p1 p2 : List Char) : List Char :=
  if p2 = [] then p1 else os_path_join p1 p2

def isLowHexDigit (c : Char) : Bool := c.isDigit || ('a' ≤ c && c ≤ 'f')

def isUpHexDigit (c : Char) : Bool := c.isDigit || ('A' ≤ c && c ≤ 'F')

/-- Python 2 `urllib._hextochr` has the all-lower-case and all-upper-case
two-digit spellings as keys, but not mixed-case ones. -/
def hexPairOk (a b : Char) : Bool :=
  (isLowHexDigit a && isLowHexDigit b) || (isUpHexDigit a && isUpHexDigit b)

def hexVal (c : Char) : Nat :=
  if c.isDigit then c.toNat - '0'.toNat
  else if 'a' ≤ c then c.toNat - 'a'.toNat + 10
  else c.toNat - 'A'.toNat + 10

/-- `urllib.unquote(s)`: each `'%'` followed by a recognised two-digit hex
pair decodes to that byte; otherwise the `'%'` is kept literally. -/
def unquote : List Char → List Char
  | '%' :: a :: b :: rest =>
    if hexPairOk a b then Char.ofNat (16 * hexVal a + hexVal b) :: unquote rest
    else '%' :: unquote (a :: b :: rest)
  | c :: rest => c :: unquote rest
  | [] => []

/-- One results type for the modelled `find_copyfrom`: a found origin, the
`None` of an exhausted ascent, or a halt (exception / non-termination). -/
abbrev FindRes := Except PyHalt (Option (List Char))

/-- The `while path1:` loop of `SVNClient.find_copyfrom`, with an explicit
fuel parameter: running out of fuel models non-termination of the source
loop.  Each iteration queries the lookup, returns on a truthy
`Copied From URL` (raising `KeyError` if `Repository Root` is then absent),
else strips the last path component, exiting when the remainder is empty or
`"/"`. -/
def find_loop (lookup : Lookup) : Nat → List Char → List Char → FindRes
  | 0, _, _ => .error .outOfFuel
  | fuel + 1, path1, path2 =>
    if path1 = [] then .ok none
    else
      let info := (lookup path1).getD []
      let url := (infoGet info keyCopiedFrom).getD []
      if url = [] then
        let p := os_path_split path1
        if p.1 = [] ∨ p.1 = ['/'] then .ok none
        else find_loop lookup fuel p.1 (smart_join p.2 path2)
      else
        match infoGet info keyRepoRoot with
        | none => .error .keyError
        | some root => .ok (some (smart_join (unquote (url.drop root.length)) path2))

/-- `SVNClient.find_copyfrom(path)`.  The fuel `path.length + 1` is exact:
every continuing iteration strictly shortens `path1` except when `path1` is
a string of two or more slashes, and such a state repeats itself forever, so
`.error .outOfFuel` holds exactly when the source loop does not terminate. -/
def find_copyfrom (lookup : Lookup) (path : List Char) : FindRes :=
  find_loop lookup (path.length + 1) path []

/-- Python `s.replace(old, new)` for non-empty `old`: replace each
non-overlapping occurrence, scanning left to right.  (`(c :: rest).drop
old.length` is written `rest.drop (old.length - 1)` for termination; the two
agree whenever `old` is non-empty, and `pyReplace` routes `old = []`
elsewhere.) -/
def pyReplaceAux (old new : List Char) : List Char → List Char
  | [] => []
  | c :: rest =>
    if old.isPrefixOf (c :: rest) then
      new ++ pyReplaceAux old new (rest.drop (old.length - 1))
    else c :: pyReplaceAux old new rest
termination_by l => l.length
decreasing_by
  · simp only [List.length_cons, List.length_drop]
    omega
  · simp

/-- Python `s.replace("", new)` inserts `new` at every character boundary. -/
def insertEverywhere (new : List Char) : List Char → List Char
  | [] => new
  | c :: rest => new ++ c :: insertEverywhere new rest

/-- Python `s.replace(old, new)`. -/
def pyReplace (s old new : List Char) : List Char :=
  if old = [] then insertEverywhere new s else pyReplaceAux old new s

/-- The scanning loop of `SVNClient.handle_renames`: an original-file header
is held back in `from_line` (and not emitted); a new-file header parses its
filename, resolves a copy origin and emits the held line (rewritten by
`str.replace` when an origin was found) followed by itself; all other lines
pass through. -/
def handle_renames_go (lookup : Lookup) (from_line : List Char) :
    List (List Char) → Except PyHalt (List (List Char))
  | [] => .ok []
  | line :: rest =>
    if matchOrig line then handle_renames_go lookup line rest
    else if matchNew line then
      match destructure2 (parse_filename_header (line.drop 4)) with
      | .error e => .error e
      | .ok (to_file, _) =>
        match find_copyfrom lookup to_file with
        | .error e => .error e
        | .ok copied? =>
          match handle_renames_go lookup from_line rest with
          | .error e => .error e
          | .ok tail =>
            .ok ((match copied? with
                  | some copied => pyReplace from_line to_file copied
                  | none => from_line) :: line :: tail)
    else
      match handle_renames_go lookup from_line rest with
      | .error e => .error e
      | .ok tail => .ok (line :: tail)

/-- `SVNClient.handle_renames(diff_content)`; `repository_url` is the
truthiness of `self.options.repository_url` (explicit-URL mode returns the
input untouched).  The initial `from_line` is the empty string. -/
def handle_renames (lookup : Lookup) (repository_url : Bool)
    (diff_content : List (List Char)) : Except PyHalt (List (List Char)) :=
  if repository_url then .ok diff_content
  else handle_renames_go lookup [] diff_content

/-- The header test of `SVNClient.convert_to_absolute_paths`:
new-file, original-file, or `Index: ` line. -/
def isHdrLine (l : List Char) : Bool :=
  matchNew l || matchOrig l || ("Index: ".data).isPrefixOf l

/-- The per-line body of `SVNClient.convert_to_absolute_paths`: header lines
are split at the first space into marker and remainder; an already-absolute
remainder is reassembled unchanged; otherwise the filename is parsed and the
absolute path computed from the base path (explicit-URL mode) or from a
fresh metadata lookup, whose `None` result passes the original line through
and whose missing keys raise `KeyError`. -/
def convLine (lookup : Lookup) (repository_url : Bool) (base_path : List Char)
    (line : List Char) : Except PyHalt (List Char) :=
  if isHdrLine line then
    match splitOnce ' ' line with
    | none => .error .valueError
    | some (front, rest) =>
      if front = [] then .ok rest
      else if rest.head? = some '/' then .ok (front ++ ' ' :: rest)
      else
        match destructure2 (parse_filename_header rest) with
        | .error e => .error e
        | .ok (file, r2) =>
          if repository_url then
            .ok (front ++ ' ' :: (unquote (base_path ++ '/' :: file) ++ r2))
          else
            match lookup file with
            | none => .ok line
            | some info =>
              match infoGet info keyURL with
              | none => .error .keyError
              | some url =>
                match infoGet info keyRepoRoot with
                | none => .error .keyError
                | some root =>
                  .ok (front ++ ' ' :: (unquote (url.drop root.length) ++ r2))
  else .ok line

/-- `SVNClient.convert_to_absolute_paths(diff_content, repository_info)`. -/
def convert_to_absolute_paths (lookup : Lookup) (repository_url : Bool)
    (base_path : List Char) : List (List Char) → Except PyHalt (List (List Char))
  | [] => .ok []
  | line :: rest =>
    match convLine lookup repository_url base_path line with
    | .error e => .error e
    | .ok line2 =>
      match convert_to_absolute_paths lookup repository_url base_path rest with
      | .error e => .error e
      | .ok rest2 => .ok (line2 :: rest2)

/-- Inputs on which the spec's length invariant for `handle_renames` does
hold: every original-file header is immediately followed by a new-file
header, and every new-file header is so preceded. -/
def wellPaired : List (List Char) → Bool
  | [] => true
  | line :: rest =>
    if matchOrig line then
      match rest with
      | [] => false
      | line2 :: rest2 => matchNew line2 && wellPaired rest2
    else !matchNew line && wellPaired rest

theorem splitOnce_join (sep : Char) :
    ∀ l f r, splitOnce sep l = some (f, r) → f ++ sep :: r = l := by
  intro l
  induction l with
  | nil => intro f r h; simp [splitOnce] at h
  | cons c rest ih =>
    intro f r h
    by_cases hc : c = sep
    · simp [splitOnce, hc] at h
      simp [← h.1, ← h.2, hc]
    · simp [splitOnce, hc] at h
      match hs : splitOnce sep rest with
      | none => rw [hs] at h; simp at h
      | some (a, b) =>
        rw [hs] at h
        simp at h
        obtain ⟨a1, ⟨ha, hb⟩, hf⟩ := h
        have hrest := ih a b hs
        rw [← hf, ← hb, ha] at *
        simp [← hrest]

theorem hdr_exclusive {l : List Char} (h : matchNew l = true) :
    matchOrig l = false := by
  match l with
  | [] => simp [matchNew, matchHdr] at h
  | [a] => simp [matchNew, matchHdr] at h
  | [a, b] => simp [matchNew, matchHdr] at h
  | a :: b :: c :: t =>
    simp only [matchNew, matchHdr, Bool.and_eq_true, decide_eq_true_eq] at h
    simp [matchOrig, matchHdr, h.1.1.1]

theorem smart_join_nil (p2 : List Char) : smart_join [] p2 = p2 := by
  match p2 with
  | [] => rfl
  | c :: rest =>
    simp only [smart_join, os_path_join]
    by_cases hc : c = '/'
    · simp [hc]
    · simp [hc]

theorem pyReplaceAux_no_occ (old new : List Char) :
    ∀ s, ¬ old <:+: s → pyReplaceAux old new s = s := by
  intro s
  induction s with
  | nil => intro _; rw [pyReplaceAux]
  | cons c rest ih =>
    intro h
    rw [pyReplaceAux]
    have hp : old.isPrefixOf (c :: rest) = false := by
      by_contra hcon
      simp only [Bool.not_eq_false] at hcon
      exact h (List.isPrefixOf_iff_prefix.mp hcon).isInfix
    rw [hp]
    simp only [Bool.false_eq_true, if_false]
    rw [ih (fun hi => h (List.infix_cons hi))]

theorem pyReplace_no_occ (s old new : List Char) (h : ¬ old <:+: s) :
    pyReplace s old new = s := by
  have hne : old ≠ [] := by
    intro he
    exact h (he ▸ List.nil_infix)
  rw [pyReplace, if_neg hne]
  exact pyReplaceAux_no_occ old new s h

/-- Repository root URL for the copy-origin resolution scenario of the spec. -/
def rootU : List Char := "http://svn.example/repo".data

/-- Metadata for the spec scenario: `/a/b/c.txt` has no copy info (lookup
miss), `/a/b` was copied from `rootU ++ "/x/b"` in the repository rooted at
`rootU`. -/
def lookupC5 : Lookup := fun p =>
  if p = "/a/b".data then
    some [(keyCopiedFrom, rootU ++ "/x/b".data), (keyRepoRoot, rootU)]
  else none

/-- A lookup that succeeds on every path but returns a mapping with no keys
at all (in particular neither `URL` nor `Repository Root`). -/
def emptyDictLookup : Lookup := fun _ => some []

/-- Metadata in which `b.txt` was copied from `R/old.txt` in the repository
rooted at `R`. -/
def lookupC10 : Lookup := fun p =>
  if p = "b.txt".data then
    some [(keyCopiedFrom, "R/old.txt".data), (keyRepoRoot, "R".data)]
  else none

/-- C7: `parse_filename_header` maps `"foo.txt\t(revision 5)\n"` to
`("foo.txt", "\t(revision 5)\n")`, `"foo bar.txt  (revision 5)\n"` to
`("foo bar.txt", "\t(revision 5)\n")` and `"plainname.txt\n"` to
`("plainname.txt", "\n")`. -/
theorem c7_parse_examples :
    parse_filename_header ("foo.txt\t(revision 5)\n".data) =
      ["foo.txt".data, "\t(revision 5)\n".data] ∧
    parse_filename_header ("foo bar.txt  (revision 5)\n".data) =
      ["foo bar.txt".data, "\t(revision 5)\n".data] ∧
    parse_filename_header ("plainname.txt\n".data) =
      ["plainname.txt".data, "\n".data] :=
  ⟨rfl, rfl, rfl⟩

/-- C1 counterexample: on `"a b\tx  y"`, which contains both a tab and a
double-space run, `parse_filename_header` does not split at the first tab
(which would give `("a b", "\tx  y")`): the later double-space check
overwrites the tab split and yields `("a b\tx", "\ty")`. -/
theorem c1_tab_space_counterexample :
    parse_filename_header ("a b\tx  y".data) = ["a b\tx".data, "\ty".data] ∧
    parse_filename_header ("a b\tx  y".data) ≠ ["a b".data, "\tx  y".data] :=
  ⟨rfl, by decide⟩

/-- C1 (amended): when the header trailing substring contains a run of two
or more consecutive spaces, `parse_filename_header` returns the multi-space
run split (with a tab prefixed to the second part), regardless of whether a
tab is present: the multi-space rule, not the tab rule, takes precedence. -/
theorem c1_space_split_wins (s a b : List Char) (r : List (List Char))
    (hd : hasDoubleSpace s = true) (hs : reSplitSpaces s = a :: b :: r) :
    parse_filename_header s = a :: ('\t' :: b) :: r := by
  simp only [parse_filename_header, hd, if_true, hs]

theorem c1_space_split_wins_witness :
    parse_filename_header ("f g\tp  q  z".data) =
      ["f g\tp".data, '\t' :: "q".data, "z".data] :=
  c1_space_split_wins _ _ _ _ (by rfl) (by rfl)

/-- C4: contrary to the never-raises claim, a header line whose trailing
content contains several separate runs of two or more spaces makes
`parse_filename_header` return three parts, and the two-element tuple
unpacking raises `ValueError` in both `handle_renames` and
`convert_to_absolute_paths`. -/
theorem c4_multi_space_runs_raise :
    handle_renames emptyLookup false
      [("--- x\t(revision 1)\n".data), ("+++ foo  bar  baz (revision 2)\n".data)] =
      .error .valueError ∧
    convert_to_absolute_paths emptyLookup false []
      [("--- foo  bar  baz (revision 1)\n".data)] = .error .valueError :=
  ⟨rfl, rfl⟩

/-- C6: contrary to the always-terminates claim, the ancestor ascent of
`find_copyfrom` never leaves the state `path1 = "//"` (with no copy info to
find): `os.path.split("//") = ("//", "")` and the exit check only tests for
`""` and `"/"`, so the loop runs forever — here, it exhausts every fuel
bound; in particular the ascent from `"//x"` diverges. -/
theorem c6_double_slash_diverges :
    (∀ fuel p2, find_loop emptyLookup fuel ('/' :: '/' :: []) p2 =
      .error .outOfFuel) ∧
    find_copyfrom emptyLookup ("//x".data) = .error .outOfFuel := by
  constructor
  · intro fuel
    induction fuel with
    | zero => intro p2; rfl
    | succ n ih =>
      intro p2
      have hstep : find_loop emptyLookup (n + 1) ('/' :: '/' :: []) p2 =
          find_loop emptyLookup n ('/' :: '/' :: []) (smart_join [] p2) := rfl
      rw [hstep, smart_join_nil]
      exact ih _
  · rfl

/-- C2 counterexample: an `OrigFileHeader` line that is never followed by a
`NewFileHeader` line is dropped by `handle_renames`: the output has fewer
lines than the input. -/
theorem c2_unpaired_orig_dropped :
    handle_renames emptyLookup false [("--- a (r)\n".data)] = .ok [] ∧
    ([] : List (List Char)).length ≠ [("--- a (r)\n".data)].length :=
  ⟨rfl, by decide⟩

/-- C3 counterexample: in working-copy mode, a header line whose metadata
lookup succeeds but returns a mapping with no `URL` key makes
`convert_to_absolute_paths` raise `KeyError` instead of emitting the
original line. -/
theorem c3_missing_url_raises :
    convert_to_absolute_paths emptyDictLookup false []
      [("--- foo.txt\t(revision 1)\n".data)] = .error .keyError ∧
    (Except.error PyHalt.keyError : Except PyHalt (List (List Char))) ≠
      .ok [("--- foo.txt\t(revision 1)\n".data)] :=
  ⟨rfl, fun h => Except.noConfusion h⟩

/-- Whether a path string contains two adjacent slashes.  Ascending from a
path free of these never reaches the all-slash stuck state of the loop in
`find_copyfrom` (see the C6 analysis), so the ascent terminates. -/
def hasDoubleSlash : List Char → Bool
  | [] => false
  | [_] => false
  | a :: b :: rest => (a = '/' && b = '/') || hasDoubleSlash (b :: rest)

theorem hds_append (l t : List Char) (h : hasDoubleSlash l = true) :
    hasDoubleSlash (l ++ t) = true := by
  induction l with
  | nil => simp [hasDoubleSlash] at h
  | cons a rest ih =>
    cases rest with
    | nil => simp [hasDoubleSlash] at h
    | cons b rest2 =>
      simp only [hasDoubleSlash, Bool.or_eq_true, Bool.and_eq_true,
        decide_eq_true_eq] at h
      rcases h with h | h
      · simp [hasDoubleSlash, h.1, h.2]
      · have h2 := ih h
        simp only [List.cons_append] at h2 ⊢
        simp [hasDoubleSlash, h2]

theorem hds_take (l : List Char) (n : Nat) (h : hasDoubleSlash l = false) :
    hasDoubleSlash (l.take n) = false := by
  by_contra hc
  simp only [Bool.not_eq_false] at hc
  have h2 := hds_append (l.take n) (l.drop n) hc
  rw [List.take_append_drop] at h2
  rw [h2] at h
  exact Bool.noConfusion h

theorem rstrip_sub (l : List Char) : ∃ t, rstripSlash l ++ t = l := by
  obtain ⟨s, hs⟩ := List.dropWhile_suffix (l := l.reverse) (fun c => c == '/')
  refine ⟨s.reverse, ?_⟩
  rw [rstripSlash, ← List.reverse_append, hs, List.reverse_reverse]

theorem hds_rstrip (l : List Char) (h : hasDoubleSlash l = false) :
    hasDoubleSlash (rstripSlash l) = false := by
  obtain ⟨t, ht⟩ := rstrip_sub l
  by_contra hc
  simp only [Bool.not_eq_false] at hc
  have h2 := hds_append _ t hc
  rw [ht] at h2
  rw [h2] at h
  exact Bool.noConfusion h

theorem rstrip_len (l : List Char) : (rstripSlash l).length ≤ l.length :=
  calc (rstripSlash l).length
      = (l.reverse.dropWhile (fun c => c == '/')).length := by
        simp [rstripSlash]
    _ ≤ l.reverse.length := (List.dropWhile_sublist _).length_le
    _ = l.length := List.length_reverse l

theorem all_slash_short (l : List Char) (ha : l.all (fun c => c == '/') = true)
    (h : hasDoubleSlash l = false) : l = [] ∨ l = ['/'] := by
  match l with
  | [] => exact Or.inl rfl
  | [c] =>
    simp only [List.all_cons, List.all_nil, Bool.and_true, beq_iff_eq] at ha
    exact Or.inr (by rw [ha])
  | a :: b :: rest =>
    exfalso
    simp only [List.all_cons, Bool.and_eq_true, beq_iff_eq] at ha
    simp [hasDoubleSlash, ha.1, ha.2.1] at h

/-- A continuing iteration of the ascent loop strictly shortens `path1` and
preserves freedom from double slashes: when the exit check does not fire,
`posixpath.split` hands back a strictly shorter double-slash-free head. -/
theorem split_shrinks (p : List Char) (hne : p ≠ [])
    (hds : hasDoubleSlash p = false)
    (hx : ¬((os_path_split p).1 = [] ∨ (os_path_split p).1 = ['/'])) :
    (os_path_split p).1.length < p.length ∧
      hasDoubleSlash (os_path_split p).1 = false := by
  have hdef : (os_path_split p).1 =
      (if (p.take (p.length -
          ((p.reverse.takeWhile (fun c => c != '/')).reverse).length)).all
          (fun c => c == '/') = true then
        p.take (p.length -
          ((p.reverse.takeWhile (fun c => c != '/')).reverse).length)
      else rstripSlash (p.take (p.length -
          ((p.reverse.takeWhile (fun c => c != '/')).reverse).length))) := rfl
  by_cases hall : (p.take
      (p.length - ((p.reverse.takeWhile (fun c => c != '/')).reverse).length)).all
      (fun c => c == '/') = true
  · exfalso
    have h1 : (os_path_split p).1 = p.take
        (p.length - ((p.reverse.takeWhile (fun c => c != '/')).reverse).length) := by
      rw [hdef, if_pos hall]
    rcases all_slash_short _ hall (hds_take p _ hds) with h2 | h2 <;>
      exact hx (by rw [h1, h2]; simp)
  · have h1 : (os_path_split p).1 = rstripSlash (p.take
        (p.length - ((p.reverse.takeWhile (fun c => c != '/')).reverse).length)) := by
      rw [hdef, if_neg hall]
    refine ⟨?_, by rw [h1]; exact hds_rstrip _ (hds_take p _ hds)⟩
    rw [h1]
    have hrl := rstrip_len (p.take
      (p.length - ((p.reverse.takeWhile (fun c => c != '/')).reverse).length))
    rw [List.length_take] at hrl
    by_cases htl : ((p.reverse.takeWhile (fun c => c != '/')).reverse).length = 0
    · -- the tail is empty: the last character of `p` is a slash, so
      -- `rstrip` removes at least one character from `head = p`.
      have hp0 : 0 < p.length := List.length_pos.mpr hne
      have htake : p.take (p.length - 0) = p := by
        rw [Nat.sub_zero]
        exact List.take_length p
      rw [htl, htake]
      have htw : p.reverse.takeWhile (fun c => c != '/') = [] := by
        rw [← List.reverse_eq_nil_iff]
        exact List.length_eq_zero.mp htl
      cases hpr : p.reverse with
      | nil => exact absurd (List.reverse_eq_nil_iff.mp hpr) hne
      | cons c rest =>
        have hc : c = '/' := by
          rw [hpr, List.takeWhile_cons] at htw
          by_contra hcn
          simp [hcn] at htw
        have hlen2 : (rstripSlash p).length ≤ rest.length := by
          rw [rstripSlash, hpr]
          simp only [List.length_reverse]
          rw [List.dropWhile_cons]
          simp only [hc, beq_self_eq_true, if_true]
          exact (List.dropWhile_sublist _).length_le
        have hplen : p.length = rest.length + 1 := by
          rw [← List.length_reverse p, hpr]
          simp
        omega
    · have hp0 : 0 < p.length := List.length_pos.mpr hne
      omega

/-- When no queried path carries a truthy `Copied From URL`, the ascent loop
of `find_copyfrom` on a double-slash-free path exhausts its components and
returns `None` well within the `length + 1` fuel bound. -/
theorem find_loop_exhausts_none (lk : Lookup)
    (hnc : ∀ q, (infoGet ((lk q).getD []) keyCopiedFrom).getD [] = []) :
    ∀ n p p2 fuel, p.length ≤ n → p.length < fuel → hasDoubleSlash p = false →
      find_loop lk fuel p p2 = .ok none := by
  intro n
  induction n with
  | zero =>
    intro p p2 fuel hlen hfuel hds
    have hp : p = [] := List.length_eq_zero.mp (Nat.le_zero.mp hlen)
    subst hp
    obtain ⟨m, rfl⟩ : ∃ m, fuel = m + 1 := ⟨fuel - 1, by omega⟩
    rfl
  | succ n ih =>
    intro p p2 fuel hlen hfuel hds
    by_cases hpe : p = []
    · subst hpe
      obtain ⟨m, rfl⟩ : ∃ m, fuel = m + 1 := ⟨fuel - 1, by omega⟩
      rfl
    · obtain ⟨m, rfl⟩ : ∃ m, fuel = m + 1 := ⟨fuel - 1, by omega⟩
      simp only [find_loop]
      rw [if_neg hpe, hnc p]
      simp only [if_true]
      by_cases hexit : (os_path_split p).1 = [] ∨ (os_path_split p).1 = ['/']
      · simp [hexit]
      · rw [if_neg hexit]
        obtain ⟨hlt, hds2⟩ := split_shrinks p hpe hds hexit
        exact ih (os_path_split p).1 (smart_join (os_path_split p).2 p2) m
          (by omega) (by omega) hds2

/-- C5 counterexample: with a metadata lookup reporting no copy info on any
path, resolving `"//q"` does not return `None` as the claim requires for an
ancestor search that finds nothing: the remaining path sticks at `"//"` and
the loop diverges — the fuel-exact model exhausts its bound instead of
producing `None`. -/
theorem c5_no_copy_diverges_not_none :
    find_copyfrom emptyLookup ("//q".data) = .error .outOfFuel ∧
    (Except.error PyHalt.outOfFuel : FindRes) ≠ .ok none :=
  ⟨rfl, fun h => Except.noConfusion h⟩

/-- C5 (amended): on any state whose metadata has a truthy `Copied From URL`
and a `Repository Root`, the ascent loop of `find_copyfrom` returns
immediately — first match wins — with the URL-decoded copy source (root
prefix stripped) joined to the accumulated suffix; on the spec scenario,
resolving `/a/b/c.txt` against `lookupC5` yields `/x/b/c.txt`; and when no
queried path has copy info, the ascent returns `None` for every path free of
doubled slashes (paths reducing to an all-slash remainder diverge instead,
see the counterexample). -/
theorem c5_first_match_wins (lookup : Lookup) (fuel : Nat)
    (p1 p2 url root : List Char) (h1 : p1 ≠ [])
    (h2 : infoGet ((lookup p1).getD []) keyCopiedFrom = some url)
    (h3 : url ≠ [])
    (h4 : infoGet ((lookup p1).getD []) keyRepoRoot = some root) :
    find_loop lookup (fuel + 1) p1 p2 =
      .ok (some (smart_join (unquote (url.drop root.length)) p2)) ∧
    find_copyfrom lookupC5 ("/a/b/c.txt".data) = .ok (some ("/x/b/c.txt".data)) ∧
    (∀ (lk : Lookup) (p : List Char),
      (∀ q, (infoGet ((lk q).getD []) keyCopiedFrom).getD [] = []) →
      hasDoubleSlash p = false →
      find_copyfrom lk p = .ok none) := by
  refine ⟨?_, rfl, ?_⟩
  · simp only [find_loop]
    rw [if_neg h1, h2, h4]
    simp [h3]
  · intro lk p hnc hds
    exact find_loop_exhausts_none lk hnc p.length p [] (p.length + 1)
      (Nat.le_refl _) (Nat.lt_succ_self _) hds

theorem c5_first_match_wins_witness :
    find_loop lookupC5 1 ("/a/b".data) ("c.txt".data) =
      .ok (some ("/x/b/c.txt".data)) ∧
    find_copyfrom emptyLookup ("a/b.txt".data) = .ok none := by
  constructor
  · have h := (c5_first_match_wins lookupC5 0 ("/a/b".data) ("c.txt".data)
        (rootU ++ "/x/b".data) rootU (by decide) (by rfl) (by decide) (by rfl)).1
    rw [h]
    rfl
  · exact (c5_first_match_wins lookupC5 0 ("/a/b".data) ("c.txt".data)
        (rootU ++ "/x/b".data) rootU (by decide) (by rfl) (by decide)
        (by rfl)).2.2 emptyLookup ("a/b.txt".data) (fun _ => rfl) (by rfl)

/-- C3 (amended): in working-copy mode the per-line soft-fail of
`convert_to_absolute_paths` applies only to a metadata lookup miss (a `None`
result), in which case the original line is emitted unmodified and
processing continues; a lookup that succeeds but returns a mapping without
the `URL` key instead raises `KeyError`. -/
theorem c3_soft_fail_only_on_lookup_miss (lookup : Lookup)
    (bp line front rest file r2 : List Char)
    (hh : isHdrLine line = true)
    (hs : splitOnce ' ' line = some (front, rest))
    (hf : front ≠ [])
    (ha : rest.head? ≠ some '/')
    (hp : destructure2 (parse_filename_header rest) = .ok (file, r2)) :
    (lookup file = none → convLine lookup false bp line = .ok line) ∧
    (∀ info, lookup file = some info → infoGet info keyURL = none →
      convLine lookup false bp line = .error .keyError) := by
  constructor
  · intro hmiss
    simp [convLine, hh, hs, hf, ha, hp, hmiss]
  · intro info hsome hnokey
    simp [convLine, hh, hs, hf, ha, hp, hsome, hnokey]

theorem c3_soft_fail_only_on_lookup_miss_witness :
    convLine emptyDictLookup false [] ("--- foo.txt\t(revision 1)\n".data) =
      .error .keyError :=
  (c3_soft_fail_only_on_lookup_miss emptyDictLookup []
    ("--- foo.txt\t(revision 1)\n".data) ("---".data)
    ("foo.txt\t(revision 1)\n".data) ("foo.txt".data) ("\t(revision 1)\n".data)
    (by rfl) (by rfl) (by decide) (by decide) (by rfl)).2 [] (by rfl) (by rfl)

/-- C8: a header line whose remainder after the marker token and the first
space already starts with `'/'` is reassembled by
`convert_to_absolute_paths` into exactly the original line; consequently the
pass is the identity on a diff whose header lines all carry absolute paths,
and applying it twice equals applying it once. -/
theorem c8_absolute_unchanged (lookup : Lookup) (ru : Bool) (bp : List Char)
    (ls : List (List Char))
    (h : ∀ l ∈ ls, isHdrLine l = true →
      ∃ front rest, splitOnce ' ' l = some (front, rest) ∧ front ≠ [] ∧
        rest.head? = some '/') :
    convert_to_absolute_paths lookup ru bp ls = .ok ls ∧
    (match convert_to_absolute_paths lookup ru bp ls with
     | .error e => (.error e : Except PyHalt (List (List Char)))
     | .ok ls2 => convert_to_absolute_paths lookup ru bp ls2) = .ok ls := by
  have key : convert_to_absolute_paths lookup ru bp ls = .ok ls := by
    induction ls with
    | nil => rfl
    | cons line rest ih =>
      have hline : convLine lookup ru bp line = .ok line := by
        by_cases hh : isHdrLine line = true
        · obtain ⟨front, r, hs, hf, ha⟩ := h line (by simp) hh
          have hjoin := splitOnce_join ' ' line front r hs
          simp [convLine, hh, hs, hf, ha, hjoin]
        · simp [convLine, hh]
      have hrest : convert_to_absolute_paths lookup ru bp rest = .ok rest :=
        ih (fun l hl => h l (List.mem_cons_of_mem _ hl))
      simp [convert_to_absolute_paths, hline, hrest]
  exact ⟨key, by rw [key]; exact key⟩

theorem c8_absolute_unchanged_witness :
    convert_to_absolute_paths emptyLookup false []
      [("--- /trunk/a\t(revision 1)\n".data), ("+++ /trunk/a\t(revision 2)\n".data),
        ("ctx\n".data)] =
      .ok [("--- /trunk/a\t(revision 1)\n".data), ("+++ /trunk/a\t(revision 2)\n".data),
        ("ctx\n".data)] := by
  refine (c8_absolute_unchanged emptyLookup false [] _ ?_).1
  intro l hl hh
  simp only [List.mem_cons, List.not_mem_nil, or_false] at hl
  rcases hl with rfl | rfl | rfl
  · exact ⟨"---".data, "/trunk/a\t(revision 1)\n".data, by rfl, by decide, by rfl⟩
  · exact ⟨"+++".data, "/trunk/a\t(revision 2)\n".data, by rfl, by decide, by rfl⟩
  · exact absurd hh (by decide)

/-- C9: on a diff none of whose lines matches the original-file, new-file or
`Index: ` header patterns, both `handle_renames` (in either mode) and
`convert_to_absolute_paths` return the input unchanged, line for line. -/
theorem c9_no_header_identity (lookup : Lookup) (ru : Bool) (bp : List Char)
    (ls : List (List Char))
    (h : ∀ l ∈ ls, matchOrig l = false ∧ matchNew l = false ∧
      ("Index: ".data).isPrefixOf l = false) :
    handle_renames lookup ru ls = .ok ls ∧
    convert_to_absolute_paths lookup ru bp ls = .ok ls := by
  constructor
  · have go_id : ∀ ls2, (∀ l ∈ ls2, matchOrig l = false ∧ matchNew l = false) →
        ∀ fl, handle_renames_go lookup fl ls2 = .ok ls2 := by
      intro ls2
      induction ls2 with
      | nil => intro _ fl; rfl
      | cons line rest ih =>
        intro hh fl
        have h1 := hh line (by simp)
        have hrest := ih (fun l hl => hh l (List.mem_cons_of_mem _ hl)) fl
        simp [handle_renames_go, h1.1, h1.2, hrest]
    rw [handle_renames]
    cases ru with
    | true => simp
    | false =>
      simp only [Bool.false_eq_true, if_false]
      exact go_id ls (fun l hl => ⟨(h l hl).1, (h l hl).2.1⟩) []
  · induction ls with
    | nil => rfl
    | cons line rest ih =>
      have h1 := h line (by simp)
      have hline : convLine lookup ru bp line = .ok line := by
        have hhdr : isHdrLine line = false := by
          simp [isHdrLine, h1.1, h1.2.1, h1.2.2]
        simp [convLine, hhdr]
      have hrest := ih (fun l hl => h l (List.mem_cons_of_mem _ hl))
      simp [convert_to_absolute_paths, hline, hrest]

theorem c9_no_header_identity_witness :
    handle_renames emptyLookup false
      [("diff content\n".data), ("@@ -1 +1 @@\n".data), ("+x\n".data)] =
      .ok [("diff content\n".data), ("@@ -1 +1 @@\n".data), ("+x\n".data)] ∧
    convert_to_absolute_paths emptyLookup false []
      [("diff content\n".data), ("@@ -1 +1 @@\n".data), ("+x\n".data)] =
      .ok [("diff content\n".data), ("@@ -1 +1 @@\n".data), ("+x\n".data)] := by
  refine c9_no_header_identity emptyLookup false [] _ ?_
  intro l hl
  simp only [List.mem_cons, List.not_mem_nil, or_false] at hl
  rcases hl with rfl | rfl | rfl
  · exact ⟨by decide, by decide, by decide⟩
  · exact ⟨by decide, by decide, by decide⟩
  · exact ⟨by decide, by decide, by decide⟩

theorem go_paired (lookup : Lookup) :
    ∀ n ls fl out, ls.length ≤ n → wellPaired ls = true →
      handle_renames_go lookup fl ls = .ok out →
      List.Forall₂ (fun a b => matchOrig a = true ∨ b = a) ls out := by
  intro n
  induction n with
  | zero =>
    intro ls fl out hlen hw hgo
    match ls with
    | [] =>
      simp only [handle_renames_go, Except.ok.injEq] at hgo
      rw [← hgo]
      exact List.Forall₂.nil
    | l :: rest => simp at hlen
  | succ n ih =>
    intro ls fl out hlen hw hgo
    match ls with
    | [] =>
      simp only [handle_renames_go, Except.ok.injEq] at hgo
      rw [← hgo]
      exact List.Forall₂.nil
    | line :: rest =>
      cases ho : matchOrig line with
      | true =>
        match rest with
        | [] => simp [wellPaired, ho] at hw
        | line2 :: rest2 =>
          simp only [wellPaired, ho, if_true, Bool.and_eq_true] at hw
          have ho2 : matchOrig line2 = false := hdr_exclusive hw.1
          simp [handle_renames_go, ho, ho2, hw.1] at hgo
          split at hgo
          · simp at hgo
          · rename_i to_file r2 hd
            split at hgo
            · simp at hgo
            · rename_i copied? hf
              split at hgo
              · simp at hgo
              · rename_i tail hg
                simp only [Except.ok.injEq] at hgo
                subst hgo
                refine List.Forall₂.cons (Or.inl ho) ?_
                refine List.Forall₂.cons (Or.inr rfl) ?_
                have hlen2 : rest2.length ≤ n := by
                  simp only [List.length_cons] at hlen
                  omega
                exact ih rest2 line tail hlen2 hw.2 hg
      | false =>
        match rest with
        | [] =>
          simp [wellPaired, ho] at hw
          simp [handle_renames_go, ho, hw] at hgo
          subst hgo
          exact List.Forall₂.cons (Or.inr rfl) List.Forall₂.nil
        | line2 :: rest2 =>
          simp [wellPaired, ho] at hw
          simp [handle_renames_go, ho, hw.1] at hgo
          split at hgo
          · simp at hgo
          · rename_i tail hg
            simp only [Except.ok.injEq] at hgo
            subst hgo
            refine List.Forall₂.cons (Or.inr rfl) ?_
            have hlen2 : (line2 :: rest2).length ≤ n := by
              simp only [List.length_cons] at hlen ⊢
              omega
            exact ih (line2 :: rest2) fl tail hlen2 hw.2 hg

/-- C2 (amended): on inputs whose header lines come in adjacent
original-file / new-file pairs — as in every diff the tool itself produces —
a successful `handle_renames` run preserves the line count, and only
original-file header lines can differ from their input line; an unpaired
original-file header, by contrast, is dropped (see the counterexample). -/
theorem c2_paired_length_invariant (lookup : Lookup) (ru : Bool)
    (ls out : List (List Char)) (hw : wellPaired ls = true)
    (hgo : handle_renames lookup ru ls = .ok out) :
    out.length = ls.length ∧
    List.Forall₂ (fun a b => matchOrig a = true ∨ b = a) ls out := by
  have hf : List.Forall₂ (fun a b => matchOrig a = true ∨ b = a) ls out := by
    rw [handle_renames] at hgo
    cases ru with
    | true =>
      simp only [if_true, Except.ok.injEq] at hgo
      rw [← hgo]
      exact List.forall₂_same.mpr (fun a _ => Or.inr rfl)
    | false =>
      simp only [Bool.false_eq_true, if_false] at hgo
      exact go_paired lookup ls.length ls [] out (Nat.le_refl _) hw hgo
  exact ⟨hf.length_eq.symm, hf⟩

theorem c2_paired_length_invariant_witness :
    ([("--- a\t(revision 1)\n".data), ("+++ a\t(revision 2)\n".data),
        ("ctx\n".data)].length : Nat) =
      [("--- a\t(revision 1)\n".data), ("+++ a\t(revision 2)\n".data),
        ("ctx\n".data)].length ∧
    List.Forall₂ (fun a b => matchOrig a = true ∨ b = a)
      [("--- a\t(revision 1)\n".data), ("+++ a\t(revision 2)\n".data),
        ("ctx\n".data)]
      [("--- a\t(revision 1)\n".data), ("+++ a\t(revision 2)\n".data),
        ("ctx\n".data)] :=
  c2_paired_length_invariant emptyLookup false _ _ (by rfl) (by rfl)

/-- C10: when `handle_renames` has a pending original-file header line and
meets a new-file header line whose file resolves to a copy origin, the
pending line is emitted with every occurrence of the new file's name
literally replaced (Python `str.replace`); in particular, when the new
file's name is not a substring of the pending line, the pending line is
emitted unchanged even though a copy origin exists. -/
theorem c10_literal_replace (lookup : Lookup) (from_line line : List Char)
    (rest : List (List Char)) (to_file r2 copied : List Char)
    (hn : matchNew line = true)
    (hp : destructure2 (parse_filename_header (line.drop 4)) = .ok (to_file, r2))
    (hc : find_copyfrom lookup to_file = .ok (some copied)) :
    handle_renames_go lookup from_line (line :: rest) =
      (match handle_renames_go lookup from_line rest with
       | .error e => (.error e : Except PyHalt (List (List Char)))
       | .ok tail => .ok (pyReplace from_line to_file copied :: line :: tail)) ∧
    (¬ to_file <:+: from_line →
      handle_renames_go lookup from_line (line :: rest) =
        (match handle_renames_go lookup from_line rest with
         | .error e => (.error e : Except PyHalt (List (List Char)))
         | .ok tail => .ok (from_line :: line :: tail))) := by
  have ho := hdr_exclusive hn
  have key : handle_renames_go lookup from_line (line :: rest) =
      (match handle_renames_go lookup from_line rest with
       | .error e => (.error e : Except PyHalt (List (List Char)))
       | .ok tail => .ok (pyReplace from_line to_file copied :: line :: tail)) := by
    simp only [handle_renames_go, ho, hn, Bool.false_eq_true, if_false, if_true]
    rw [hp]
    show (match find_copyfrom lookup to_file with
          | .error e => (.error e : Except PyHalt (List (List Char)))
          | .ok copied? =>
            match handle_renames_go lookup from_line rest with
            | .error e => .error e
            | .ok tail =>
              .ok ((match copied? with
                    | some c => pyReplace from_line to_file c
                    | none => from_line) :: line :: tail)) = _
    rw [hc]
  refine ⟨key, fun hinf => ?_⟩
  rw [key]
  simp only [pyReplace_no_occ from_line to_file copied hinf]

theorem c10_literal_replace_witness :
    handle_renames_go lookupC10 ("--- a.txt\t(revision 0)\n".data)
      [("+++ b.txt\t(revision 3)\n".data)] =
      .ok [("--- a.txt\t(revision 0)\n".data), ("+++ b.txt\t(revision 3)\n".data)] := by
  have h := (c10_literal_replace lookupC10 ("--- a.txt\t(revision 0)\n".data)
      ("+++ b.txt\t(revision 3)\n".data) [] ("b.txt".data)
      ("\t(revision 3)\n".data) ("/old.txt".data)
      (by rfl) (by rfl) (by rfl)).2 (by decide)
  rw [h]
  exact rfl
